import Mathlib

/-
Verification of the lockcheck static analyzer of this repository.

The repository ships the analyzer's behavioral test
(src/analysis/lockcheck/lockcheck_test.go); the analyzer implementation
itself (analysis/lockcheck/lockcheck.go) is not among the provided source
files, so the analyzer is modelled here from the specification's account
of it: a two-value lock-state lattice threaded through each method body,
a name-based privilege classifier, a call-site checker, and per-statement
transition rules.  The test file's method bodies are encoded as concrete
inputs and its expectation annotations as expected diagnostic lists.
-/

namespace LockCheck

/-- Modelled from the spec: the two-value LockState lattice of the missing
analyzer implementation (analysis/lockcheck/lockcheck.go).  States are
Locked and NotLocked. -/
inductive LockState where
  | Locked
  | NotLocked
deriving DecidableEq, Repr

/-- Modelled from the spec: the conjunctive join of the missing analyzer:
the merge of two incoming control-flow edges is Locked only if both are
Locked; any disagreement yields NotLocked. -/
def LockState.merge : LockState → LockState → LockState
  | .Locked, .Locked => .Locked
  | _, _ => .NotLocked

/-- Privilege class of a method of a mutex-bearing type. -/
inductive Privilege where
  | Privileged
  | Unprivileged
deriving DecidableEq, Repr

/-- True when the string's first character is upper-case. -/
def upperFirst (s : String) : Bool :=
  match s.data with
  | [] => false
  | c :: _ => c.isUpper

/-- Character-list test that the first list begins the second. -/
def beginsWithChars : List Char → List Char → Bool
  | [], _ => true
  | _ :: _, [] => false
  | c :: p, d :: s => c = d && beginsWithChars p s

/-- String test that `p` begins `s` (exact, case-sensitive, at the start). -/
def beginsWith (p s : String) : Bool :=
  beginsWithChars p.data s.data

/-- Modelled from the spec: the Declaration Classifier of the missing
analyzer implementation.  A method is Privileged if its name's first
character is upper-case or the name begins with one of the recognized
prefix strings managed, threaded, call; Unprivileged otherwise. -/
def classify (name : String) : Privilege :=
  if upperFirst name || beginsWith "managed" name || beginsWith "threaded" name
      || beginsWith "call" name then
    .Privileged
  else
    .Unprivileged

/-- The first camelCase word of a character list: the maximal leading run
of characters that are not upper-case. -/
def firstWordChars : List Char → List Char
  | [] => []
  | c :: l =>
      match c.isUpper with
      | true => []
      | false => c :: firstWordChars l

/-- The first camelCase word of an identifier. -/
def firstWord (s : String) : List Char :=
  firstWordChars s.data

/-- Modelled from the spec and the test's expectation annotations: the
amended Declaration Classifier of the missing analyzer implementation,
in which a recognized prefix qualifies only when it is the name's whole
first camelCase word: Privileged if the name's first character is
upper-case or the first word equals managed, threaded or call;
Unprivileged otherwise.  Under plain begins-with matching the test
names callsPrivileged and callsUnprivileged would be Privileged,
contradicting the test's expected diagnostics at lines 48-54, while
callBar stays Privileged under both readings. -/
def classifyWord (name : String) : Privilege :=
  if upperFirst name || firstWord name = "managed".data
      || firstWord name = "threaded".data || firstWord name = "call".data then
    .Privileged
  else
    .Unprivileged

/-- Modelled from the spec: the statement shapes the missing analyzer
distinguishes inside a method body of a mutex-bearing type.  lockAcquire
and lockRelease are calls on the type's own lock field; access is a
read or write of a protected field of the receiver; callSame is a call
resolving to another method of the same mapped type; foreign is a field
access or call through a receiver of a different type; deferRelease is a
scoped-release registration; funcLit is an inline or stored function
literal; ite is a conditional (the analyzer ignores the condition);
loop admits zero or more executions of its body. -/
inductive Stmt where
  | skip
  | lockAcquire
  | lockRelease
  | access (field : String)
  | callSame (callee : String)
  | foreign
  | deferRelease
  | funcLit (body : Stmt)
  | seq (a b : Stmt)
  | ite (a b : Stmt)
  | loop (body : Stmt)
deriving DecidableEq, Repr

/-- A violation record accumulated by the Diagnostic Reporter; the
constructor encodes the message category. -/
inductive Violation where
  | accessWithoutMutex (method field : String)
  | locksMutex (method : String)
  | callsPrivilegedWithLock (caller callee : String)
  | callsUnprivilegedWithoutLock (caller callee : String)
  | unprivilegedCallsPrivileged (caller callee : String)
deriving DecidableEq, Repr

/-- Modelled from the spec: the LockState transfer function of the missing
analyzer implementation.  Acquire sets Locked, release sets NotLocked,
branch joins merge conjunctively, a scoped-release registration leaves
the state unchanged, a function literal leaves the enclosing state
unchanged, and a loop merges the pre-loop state with the post-body state
at the fixed-point entry state (the entry iteration is unrolled twice,
which the two-value lattice makes a fixed point). -/
def flowState : Stmt → LockState → LockState
  | .skip, s => s
  | .lockAcquire, _ => .Locked
  | .lockRelease, _ => .NotLocked
  | .access _, s => s
  | .callSame _, s => s
  | .foreign, s => s
  | .deferRelease, s => s
  | .funcLit _, s => s
  | .seq a b, s => flowState b (flowState a s)
  | .ite a b, s => LockState.merge (flowState a s) (flowState b s)
  | .loop b, s =>
      let e1 := LockState.merge s (flowState b s)
      let e2 := LockState.merge s (flowState b e1)
      LockState.merge s (flowState b e2)

/-- The state entering a loop body: the merge of the pre-loop state and
the previous iteration's end-of-body state, iterated to a fixed point. -/
def loopEntry (b : Stmt) (s : LockState) : LockState :=
  LockState.merge s (flowState b (LockState.merge s (flowState b s)))

/-- The entry-state iteration sequence of a loop: pass 0 is the pre-loop
state, and each later pass merges the pre-loop state with the end-of-body
state of the previous pass. -/
def entrySeq (b : Stmt) (s : LockState) : Nat → LockState
  | 0 => s
  | k + 1 => LockState.merge s (flowState b (entrySeq b s k))

/-- Modelled from the spec: the Call-Site Checker of the missing analyzer
implementation, given the caller's privilege, both names, the callee's
privilege and the caller's current lock state. -/
def checkCall (callerPriv : Privilege) (caller callee : String)
    (calleePriv : Privilege) (st : LockState) : List Violation :=
  match callerPriv, calleePriv, st with
  | .Privileged, .Privileged, .Locked => [.callsPrivilegedWithLock caller callee]
  | .Privileged, .Unprivileged, .NotLocked => [.callsUnprivilegedWithoutLock caller callee]
  | .Unprivileged, .Privileged, _ => [.unprivilegedCallsPrivileged caller callee]
  | _, _, _ => []

/-- Modelled from the spec: the diagnostic-producing walk of the missing
analyzer implementation over one method body, for a method of privilege
`p` named `n`.  A protected-field access is diagnosed in a Privileged
method while the state is not Locked; a lock-acquire or lock-release in
an Unprivileged method is always diagnosed; calls to methods of the same
type go through the Call-Site Checker; foreign accesses and calls are
never diagnosed; a function literal's body is traversed as an
independent nested scope starting from a fresh NotLocked state; a loop
body's diagnostics are taken at the fixed-point entry state. -/
def walkViol (p : Privilege) (n : String) : Stmt → LockState → List Violation
  | .skip, _ => []
  | .lockAcquire, _ =>
      match p with
      | .Unprivileged => [.locksMutex n]
      | .Privileged => []
  | .lockRelease, _ =>
      match p with
      | .Unprivileged => [.locksMutex n]
      | .Privileged => []
  | .access fld, s =>
      match p, s with
      | .Privileged, .NotLocked => [.accessWithoutMutex n fld]
      | _, _ => []
  | .callSame m, s => checkCall p n m (classify m) s
  | .foreign, _ => []
  | .deferRelease, _ => []
  | .funcLit b, _ => walkViol p n b .NotLocked
  | .seq a b, s => walkViol p n a s ++ walkViol p n b (flowState a s)
  | .ite a b, s => walkViol p n a s ++ walkViol p n b s
  | .loop b, s => walkViol p n b (loopEntry b s)

/-- A method declaration: a name and a body. -/
structure Method where
  name : String
  body : Stmt
deriving DecidableEq, Repr

/-- An aggregate type declaration: whether it has a field of the
recognized lock type, and its methods. -/
structure TypeDecl where
  hasLockField : Bool
  methods : List Method
deriving DecidableEq, Repr

/-- Analysis of one method: classify by name, then walk the body from the
entry state NotLocked. -/
def analyzeMethod (m : Method) : List Violation :=
  walkViol (classify m.name) m.name m.body .NotLocked

/-- Modelled from the spec: the per-type analysis of the missing analyzer
implementation.  Types without a lock-typed field are absent from the
type map and produce no diagnostics; for mapped types every method is
walked. -/
def analyzeType (t : TypeDecl) : List Violation :=
  if t.hasLockField then (t.methods.map analyzeMethod).flatten else []

/-- A control-flow path through a statement: `Exec b s t` holds when some
single execution path through `b` started in lock state `s` ends in lock
state `t`.  Conditionals choose either branch regardless of the
condition, and loops execute their body zero or more times.  Lock
operations inside a function literal do not affect the enclosing path. -/
inductive Exec : Stmt → LockState → LockState → Prop
  | skip {s} : Exec .skip s s
  | lockAcquire {s} : Exec .lockAcquire s .Locked
  | lockRelease {s} : Exec .lockRelease s .NotLocked
  | access {fld s} : Exec (.access fld) s s
  | callSame {m s} : Exec (.callSame m) s s
  | foreign {s} : Exec .foreign s s
  | deferRelease {s} : Exec .deferRelease s s
  | funcLit {b s} : Exec (.funcLit b) s s
  | seq {a b s t u} : Exec a s t → Exec b t u → Exec (.seq a b) s u
  | iteLeft {a b s t} : Exec a s t → Exec (.ite a b) s t
  | iteRight {a b s t} : Exec b s t → Exec (.ite a b) s t
  | loopZero {b s} : Exec (.loop b) s s
  | loopSucc {b s t u} : Exec b s t → Exec (.loop b) t u → Exec (.loop b) s u

/-- Modelled from the spec and the test's expectation annotations: the
amended walk of the missing analyzer implementation in which a function
literal's body is traversed starting from the enclosing method's lock
state at the point where the literal appears, rather than from a fresh
NotLocked state; everything else is as in walkViol, and state changes
inside a literal still do not leak back (flowState is unchanged). -/
def walkInherit (p : Privilege) (n : String) : Stmt → LockState → List Violation
  | .skip, _ => []
  | .lockAcquire, _ =>
      match p with
      | .Unprivileged => [.locksMutex n]
      | .Privileged => []
  | .lockRelease, _ =>
      match p with
      | .Unprivileged => [.locksMutex n]
      | .Privileged => []
  | .access fld, s =>
      match p, s with
      | .Privileged, .NotLocked => [.accessWithoutMutex n fld]
      | _, _ => []
  | .callSame m, s => checkCall p n m (classify m) s
  | .foreign, _ => []
  | .deferRelease, _ => []
  | .funcLit b, s => walkInherit p n b s
  | .seq a b, s => walkInherit p n a s ++ walkInherit p n b (flowState a s)
  | .ite a b, s => walkInherit p n a s ++ walkInherit p n b s
  | .loop b, s => walkInherit p n b (loopEntry b s)

/-- Modelled from the spec and the test's expectation annotations: the
walk of walkViol with the amended first-word classifier used to
classify the callee at same-type call sites. -/
def walkWord (p : Privilege) (n : String) : Stmt → LockState → List Violation
  | .skip, _ => []
  | .lockAcquire, _ =>
      match p with
      | .Unprivileged => [.locksMutex n]
      | .Privileged => []
  | .lockRelease, _ =>
      match p with
      | .Unprivileged => [.locksMutex n]
      | .Privileged => []
  | .access fld, s =>
      match p, s with
      | .Privileged, .NotLocked => [.accessWithoutMutex n fld]
      | _, _ => []
  | .callSame m, s => checkCall p n m (classifyWord m) s
  | .foreign, _ => []
  | .deferRelease, _ => []
  | .funcLit b, _ => walkWord p n b .NotLocked
  | .seq a b, s => walkWord p n a s ++ walkWord p n b (flowState a s)
  | .ite a b, s => walkWord p n a s ++ walkWord p n b s
  | .loop b, s => walkWord p n b (loopEntry b s)

/-- Analysis of one method with the amended first-word classifier for
both the caller and the callees. -/
def analyzeMethodWord (m : Method) : List Violation :=
  walkWord (classifyWord m.name) m.name m.body .NotLocked

/-- Expected diagnostics for the test method callsPrivileged per its
annotation: one unprivileged-calls-privileged violation, whose message
names callsPrivileged itself as an unprivileged method. -/
def callsPrivilegedWants : List Violation :=
  [.unprivilegedCallsPrivileged "callsPrivileged" "managedBar"]

/-- Expected diagnostics for the test method callsUnprivileged per its
annotations: none (its call of bar is marked OK). -/
def callsUnprivilegedWants : List Violation := []

/-- Number of lock-acquire and lock-release calls on the type's own lock
appearing in a statement (function-literal bodies included). -/
def lockOps : Stmt → Nat
  | .lockAcquire => 1
  | .lockRelease => 1
  | .funcLit b => lockOps b
  | .seq a b => lockOps a + lockOps b
  | .ite a b => lockOps a + lockOps b
  | .loop b => lockOps b
  | _ => 0

/-- Monotonicity of a transfer function over the two-value lattice
ordered with NotLocked below Locked. -/
def Mono (f : LockState → LockState) : Prop :=
  f .NotLocked = .Locked → f .Locked = .Locked

/-- Body of the test method bar: a bare lock acquire. -/
def barBody : Stmt := .lockAcquire

/-- Body of the test method ExportedUnlocking: lock, unlock, then access. -/
def exportedUnlockingBody : Stmt := .seq (.seq .lockAcquire .lockRelease) (.access "i")

/-- Body of the test method OnePathLocks: a lock on only one branch of a
conditional, then an access. -/
def onePathLocksBody : Stmt := .seq (.ite .lockAcquire .skip) (.access "i")

/-- Body of the test method AllPathsLock: a lock on every branch of a
conditional, then an access. -/
def allPathsLockBody : Stmt := .seq (.ite .lockAcquire .lockAcquire) (.access "i")

/-- Body of the test method ExportedDeferLocking: lock, scoped-release
registration, then access. -/
def exportedDeferLockingBody : Stmt := .seq (.seq .lockAcquire .deferRelease) (.access "i")

/-- Body of the test method ExportedConditionalLocking: nested
conditionals that lock on some paths and unlock on another, then a
conditional access. -/
def exportedConditionalLockingBody : Stmt :=
  .seq
    (.ite
      (.seq (.ite (.ite .lockAcquire .skip) .skip) (.ite .lockAcquire .lockRelease))
      .skip)
    (.ite (.access "i") .skip)

/-- Body of the test method ExportedLoopLocking: lock before a loop whose
body unlocks then re-locks, then an access after the loop. -/
def exportedLoopLockingBody : Stmt :=
  .seq (.seq .lockAcquire (.loop (.seq .lockRelease .lockAcquire))) (.access "i")

/-- Body of the test method CallsPrivilegedWithLock: lock, then a call of
the Privileged method Bar. -/
def callsPrivilegedWithLockBody : Stmt := .seq .lockAcquire (.callSame "Bar")

/-- Body of the test method CallLiteral: an invoked literal that locks,
registers a scoped release and accesses a protected field; then a lock
and a scoped-release registration in the method itself; then an invoked
literal that only accesses the protected field. -/
def callLiteralBody : Stmt :=
  .seq
    (.seq (.funcLit (.seq (.seq .lockAcquire .deferRelease) (.access "i")))
      (.seq .lockAcquire .deferRelease))
    (.funcLit (.access "i"))

/-- Body of the test method CallAssignedLiteral: a stored literal that
locks and then accesses a protected field inside a conditional, followed
by a call of the stored literal (a local value, not a method of the
type). -/
def callAssignedLiteralBody : Stmt :=
  .seq (.funcLit (.seq .lockAcquire (.ite (.access "i") .skip))) .foreign

/-- Expected diagnostics for CallLiteral per the test's expectation
annotations: every line of the method is marked OK. -/
def callLiteralWants : List Violation := []

/-- The test type FooNoMutex: no lock-typed field; its methods access its
own field and call its own exported method. -/
def fooNoMutex : TypeDecl :=
  { hasLockField := false
    methods := [{ name := "Bar", body := .access "i" }, { name := "baz", body := .callSame "Bar" }] }

/-- The test type FooUnrelatedExportedMethod: it has a lock field, and its
bare method calls a method through a field of a different mapped type. -/
def fooUnrelated : TypeDecl :=
  { hasLockField := true
    methods := [{ name := "bar", body := .foreign }] }

lemma merge_notLocked_left (x : LockState) :
    LockState.merge .NotLocked x = .NotLocked := by
  cases x <;> rfl

lemma merge_locked_left (x : LockState) : LockState.merge .Locked x = x := by
  cases x <;> rfl

lemma merge_eq_locked {x y : LockState} :
    LockState.merge x y = .Locked ↔ x = .Locked ∧ y = .Locked := by
  cases x <;> cases y <;> simp [LockState.merge]

lemma flowState_loop (b : Stmt) (s : LockState) :
    flowState (.loop b) s = LockState.merge s (flowState b (loopEntry b s)) := rfl

lemma flowState_loop_notLocked (b : Stmt) :
    flowState (.loop b) .NotLocked = .NotLocked := by
  rw [flowState_loop, merge_notLocked_left]

lemma flowState_mono (b : Stmt) : Mono (flowState b) := by
  induction b with
  | skip => intro _; rfl
  | lockAcquire => intro _; rfl
  | lockRelease => intro h; exact h
  | access fld => intro _; rfl
  | callSame m => intro _; rfl
  | foreign => intro _; rfl
  | deferRelease => intro _; rfl
  | funcLit b ih => intro _; rfl
  | seq a b iha ihb =>
      intro h
      show flowState b (flowState a .Locked) = .Locked
      have h2 : flowState b (flowState a .NotLocked) = .Locked := h
      cases hA : flowState a .NotLocked with
      | Locked =>
          rw [iha hA]
          rw [hA] at h2
          exact h2
      | NotLocked =>
          rw [hA] at h2
          cases hL : flowState a .Locked with
          | Locked => exact ihb h2
          | NotLocked => exact h2
  | ite a b iha ihb =>
      intro h
      have h2 := merge_eq_locked.mp h
      exact merge_eq_locked.mpr ⟨iha h2.1, ihb h2.2⟩
  | loop b ih =>
      intro h
      rw [flowState_loop_notLocked] at h
      exact absurd h (by simp)

lemma loopEntry_fix (b : Stmt) (s : LockState) :
    LockState.merge s (flowState b (loopEntry b s)) = loopEntry b s := by
  cases s with
  | NotLocked => simp [loopEntry, merge_notLocked_left]
  | Locked =>
      cases hL : flowState b .Locked with
      | Locked => simp [loopEntry, merge_locked_left, hL]
      | NotLocked =>
          have hN : flowState b .NotLocked = .NotLocked := by
            cases hN : flowState b .NotLocked with
            | Locked =>
                have := flowState_mono b hN
                rw [hL] at this
                exact absurd this (by simp)
            | NotLocked => rfl
          simp [loopEntry, merge_locked_left, hL, hN]

/-- Soundness of the abstract state: if the transfer function reports
Locked, every control-flow path ends Locked. -/
lemma exec_sound {b : Stmt} {s t : LockState} (h : Exec b s t) :
    flowState b s = .Locked → t = .Locked := by
  induction h with
  | skip => intro h2; exact h2
  | lockAcquire => intro _; rfl
  | lockRelease => intro h2; exact h2
  | access => intro h2; exact h2
  | callSame => intro h2; exact h2
  | foreign => intro h2; exact h2
  | deferRelease => intro h2; exact h2
  | funcLit => intro h2; exact h2
  | seq ha hb iha ihb =>
      intro h2
      rename_i a b s t u
      have h3 : flowState b (flowState a s) = .Locked := h2
      cases hA : flowState a s with
      | Locked =>
          rw [hA] at h3
          apply ihb
          rw [iha hA]
          exact h3
      | NotLocked =>
          rw [hA] at h3
          have hL := flowState_mono b h3
          apply ihb
          cases t with
          | Locked => exact hL
          | NotLocked => exact h3
  | iteLeft ha iha =>
      intro h2
      exact iha (merge_eq_locked.mp h2).1
  | iteRight hb ihb =>
      intro h2
      exact ihb (merge_eq_locked.mp h2).2
  | loopZero =>
      intro h2
      rw [flowState_loop] at h2
      exact (merge_eq_locked.mp h2).1
  | loopSucc hb hloop ih1 ih2 =>
      intro h2
      rename_i b s t u
      rw [flowState_loop] at h2
      obtain ⟨hs, hf⟩ := merge_eq_locked.mp h2
      subst hs
      cases hL : flowState b .Locked with
      | Locked =>
          have ht := ih1 hL
          apply ih2
          rw [ht, flowState_loop]
          exact merge_eq_locked.mpr ⟨rfl, hf⟩
      | NotLocked =>
          cases hN : flowState b .NotLocked with
          | Locked =>
              have := flowState_mono b hN
              rw [hL] at this
              exact absurd this (by simp)
          | NotLocked =>
              have hE : loopEntry b .Locked = .NotLocked := by
                simp [loopEntry, merge_locked_left, hL, hN]
              rw [hE, hN] at hf
              exact absurd hf (by simp)

/-- Completeness of the abstract state: the transfer function's result is
realized by some control-flow path. -/
lemma exec_flowState (b : Stmt) : ∀ s : LockState, Exec b s (flowState b s) := by
  induction b with
  | skip => intro s; exact .skip
  | lockAcquire => intro s; exact .lockAcquire
  | lockRelease => intro s; exact .lockRelease
  | access fld => intro s; exact .access
  | callSame m => intro s; exact .callSame
  | foreign => intro s; exact .foreign
  | deferRelease => intro s; exact .deferRelease
  | funcLit b ih => intro s; exact .funcLit
  | seq a b iha ihb => intro s; exact .seq (iha s) (ihb (flowState a s))
  | ite a b iha ihb =>
      intro s
      show Exec (.ite a b) s (LockState.merge (flowState a s) (flowState b s))
      cases hA : flowState a s <;> cases hB : flowState b s
      · have h := iha s; rw [hA] at h; exact .iteLeft h
      · have h := ihb s; rw [hB] at h; exact .iteRight h
      · have h := iha s; rw [hA] at h; exact .iteLeft h
      · have h := iha s; rw [hA] at h; exact .iteLeft h
  | loop b ih =>
      intro s
      rw [flowState_loop]
      cases s with
      | NotLocked =>
          rw [merge_notLocked_left]
          exact .loopZero
      | Locked =>
          rw [merge_locked_left]
          cases hL : flowState b .Locked with
          | Locked =>
              have hE : loopEntry b .Locked = .Locked := by
                simp [loopEntry, merge_locked_left, hL]
              rw [hE, hL]
              exact .loopZero
          | NotLocked =>
              cases hN : flowState b .NotLocked with
              | Locked =>
                  have := flowState_mono b hN
                  rw [hL] at this
                  exact absurd this (by simp)
              | NotLocked =>
                  have hE : loopEntry b .Locked = .NotLocked := by
                    simp [loopEntry, merge_locked_left, hL, hN]
                  rw [hE, hN]
                  have h := ih .Locked
                  rw [hL] at h
                  exact .loopSucc h .loopZero

/-- Meet-over-all-paths characterization: the abstract state is Locked
exactly when every control-flow path ends Locked. -/
lemma flow_eq_locked_iff (b : Stmt) (s : LockState) :
    flowState b s = .Locked ↔ ∀ t, Exec b s t → t = .Locked :=
  ⟨fun h _ he => exec_sound he h, fun h => h _ (exec_flowState b s)⟩

example : flowState (.seq .lockAcquire .lockRelease) .NotLocked = .NotLocked := by decide

example :
    walkViol .Privileged "ExportedUnlocking"
      (.seq (.seq .lockAcquire .lockRelease) (.access "i")) .NotLocked
      = [.accessWithoutMutex "ExportedUnlocking" "i"] := by decide

example :
    walkViol .Privileged "OnePathLocks"
      (.seq (.ite .lockAcquire .skip) (.access "i")) .NotLocked
      = [.accessWithoutMutex "OnePathLocks" "i"] := by decide

example :
    walkViol .Privileged "AllPathsLock"
      (.seq (.ite .lockAcquire .lockAcquire) (.access "i")) .NotLocked = [] := by decide

example : classify "managedBar" = .Privileged := by decide

example : classify "otherprefixBar" = .Unprivileged := by decide

lemma beginsWithChars_iff (p : List Char) :
    ∀ s : List Char, beginsWithChars p s = true ↔ ∃ r, s = p ++ r := by
  induction p with
  | nil => intro s; simp [beginsWithChars]
  | cons c p ih =>
      intro s
      cases s with
      | nil => simp [beginsWithChars]
      | cons d s =>
          rw [show beginsWithChars (c :: p) (d :: s)
              = (decide (c = d) && beginsWithChars p s) from rfl,
            Bool.and_eq_true, decide_eq_true_eq, ih s]
          constructor
          · rintro ⟨hcd, r, hr⟩
            refine ⟨r, ?_⟩
            rw [hr, hcd]
            rfl
          · rintro ⟨r, hr⟩
            injection hr with h1 h2
            exact ⟨h1.symm, r, h2⟩

lemma beginsWith_iff (p s : String) :
    beginsWith p s = true ↔ ∃ r, s.data = p.data ++ r :=
  beginsWithChars_iff p.data s.data

lemma firstWordChars_eq_iff :
    ∀ p : List Char, (∀ c ∈ p, c.isUpper = false) →
      ∀ l : List Char, (firstWordChars l = p
        ↔ ∃ r, l = p ++ r ∧ ∀ c r2, r = c :: r2 → c.isUpper = true) := by
  intro p
  induction p with
  | nil =>
      intro _ l
      cases l with
      | nil =>
          constructor
          · intro _
            exact ⟨[], rfl, fun c r2 h => nomatch h⟩
          · intro _
            rfl
      | cons d l2 =>
          cases hd : d.isUpper with
          | true =>
              constructor
              · intro _
                refine ⟨d :: l2, rfl, fun c r2 h => ?_⟩
                injection h with h1 _
                rw [← h1]
                exact hd
              · intro _
                simp [firstWordChars, hd]
          | false =>
              constructor
              · intro h
                rw [show firstWordChars (d :: l2) = d :: firstWordChars l2 from by
                  simp [firstWordChars, hd]] at h
                exact nomatch h
              · rintro ⟨r, hr, hcond⟩
                have hu := hcond d l2 hr.symm
                rw [hd] at hu
                exact nomatch hu
  | cons c p2 ih =>
      intro hp l
      have hcup : c.isUpper = false := hp c (List.mem_cons_self c p2)
      have hp2 : ∀ x ∈ p2, x.isUpper = false := fun x hx => hp x (List.mem_cons_of_mem c hx)
      cases l with
      | nil =>
          constructor
          · intro h
            exact nomatch h
          · rintro ⟨r, hr, _⟩
            exact nomatch hr
      | cons d l2 =>
          cases hd : d.isUpper with
          | true =>
              constructor
              · intro h
                rw [show firstWordChars (d :: l2) = [] from by
                  simp [firstWordChars, hd]] at h
                exact nomatch h
              · rintro ⟨r, hr, _⟩
                injection hr with h1 _
                rw [← h1, hd] at hcup
                exact nomatch hcup
          | false =>
              rw [show firstWordChars (d :: l2) = d :: firstWordChars l2 from by
                simp [firstWordChars, hd]]
              constructor
              · intro h
                injection h with h1 h2
                obtain ⟨r, hr, hcond⟩ := (ih hp2 l2).mp h2
                refine ⟨r, ?_, hcond⟩
                rw [h1, hr]
                rfl
              · rintro ⟨r, hr, hcond⟩
                injection hr with h1 h2
                rw [h1, (ih hp2 l2).mpr ⟨r, h2, hcond⟩]

lemma upperFirst_iff (s : String) :
    upperFirst s = true ↔ ∃ c r, s.data = c :: r ∧ c.isUpper = true := by
  cases h : s.data with
  | nil => simp [upperFirst, h]
  | cons c r =>
      simp only [upperFirst, h]
      constructor
      · intro hc
        exact ⟨c, r, rfl, hc⟩
      · rintro ⟨c2, r2, h2, hc2⟩
        injection h2 with e1 e2
        rw [e1]
        exact hc2

/-- C1: In a Privileged method, writing the statements before a
protected-field access as `c`, the walk of `c` followed by the access
appends the unguarded-access violation to the walk of `c` exactly when
at least one control-flow path through `c` from the NotLocked entry
state ends in a state other than Locked, and appends nothing exactly
when every such path ends Locked; in particular a lock on only one
branch of a conditional yields a diagnostic for the later access, a
lock on every branch yields none, and a lock-then-unlock sequence
yields one. -/
theorem claim_C1 :
    (∀ (c : Stmt) (n fld : String),
      (walkViol .Privileged n (.seq c (.access fld)) .NotLocked
          = walkViol .Privileged n c .NotLocked ++ [.accessWithoutMutex n fld]
        ↔ ∃ t, Exec c .NotLocked t ∧ t ≠ .Locked)
      ∧
      (walkViol .Privileged n (.seq c (.access fld)) .NotLocked
          = walkViol .Privileged n c .NotLocked
        ↔ ∀ t, Exec c .NotLocked t → t = .Locked))
    ∧ walkViol .Privileged "OnePathLocks" onePathLocksBody .NotLocked
        = [.accessWithoutMutex "OnePathLocks" "i"]
    ∧ walkViol .Privileged "AllPathsLock" allPathsLockBody .NotLocked = []
    ∧ walkViol .Privileged "ExportedUnlocking" exportedUnlockingBody .NotLocked
        = [.accessWithoutMutex "ExportedUnlocking" "i"] := by
  refine ⟨?_, by decide, by decide, by decide⟩
  intro c n fld
  have hsplit : walkViol .Privileged n (.seq c (.access fld)) .NotLocked
      = walkViol .Privileged n c .NotLocked
        ++ walkViol .Privileged n (.access fld) (flowState c .NotLocked) := rfl
  cases hF : flowState c .NotLocked with
  | Locked =>
      refine ⟨⟨?_, ?_⟩, ?_, ?_⟩
      · intro h
        rw [hsplit, hF] at h
        simp [walkViol] at h
      · rintro ⟨t, ht, hne⟩
        exact absurd (exec_sound ht hF) hne
      · intro _
        exact fun t ht => exec_sound ht hF
      · intro _
        rw [hsplit, hF]
        simp [walkViol]
  | NotLocked =>
      refine ⟨⟨?_, ?_⟩, ?_, ?_⟩
      · intro _
        have h := exec_flowState c .NotLocked
        rw [hF] at h
        exact ⟨.NotLocked, h, by simp⟩
      · intro _
        rw [hsplit, hF]
        simp [walkViol]
      · intro h
        rw [hsplit, hF] at h
        simp [walkViol] at h
      · intro hall
        have h2 : flowState c .NotLocked = .Locked :=
          (flow_eq_locked_iff c .NotLocked).mpr hall
        rw [hF] at h2
        exact absurd h2 (by simp)

/-- C2: The Call-Site Checker follows the cross-method matrix for calls
resolving to another method of the same mapped type: a Privileged caller
calling a Privileged callee while Locked is a violation; Privileged
calling Unprivileged while NotLocked is a violation; Unprivileged
calling Privileged is a violation in either lock state; Unprivileged
calling Unprivileged is never one; the remaining two Privileged-caller
combinations are allowed; and the walk dispatches every same-type call
to the checker with the callee's classification. -/
theorem claim_C2 :
    (∀ (p : Privilege) (n m : String) (s : LockState),
        walkViol p n (.callSame m) s = checkCall p n m (classify m) s)
    ∧ (∀ caller callee : String,
        checkCall .Privileged caller callee .Privileged .Locked
            = [.callsPrivilegedWithLock caller callee]
        ∧ checkCall .Privileged caller callee .Privileged .NotLocked = []
        ∧ checkCall .Privileged caller callee .Unprivileged .NotLocked
            = [.callsUnprivilegedWithoutLock caller callee]
        ∧ checkCall .Privileged caller callee .Unprivileged .Locked = []
        ∧ (∀ s, checkCall .Unprivileged caller callee .Privileged s
            = [.unprivilegedCallsPrivileged caller callee])
        ∧ (∀ s, checkCall .Unprivileged caller callee .Unprivileged s = []))
    ∧ (∀ s, walkViol .Unprivileged "callsPrivileged" (.callSame "managedBar") s
        = [.unprivilegedCallsPrivileged "callsPrivileged" "managedBar"])
    ∧ (∀ s, walkViol .Unprivileged "callsUnprivileged" (.callSame "bar") s = [])
    ∧ walkViol .Privileged "CallsPrivilegedWithLock" callsPrivilegedWithLockBody .NotLocked
        = [.callsPrivilegedWithLock "CallsPrivilegedWithLock" "Bar"]
    ∧ walkViol .Privileged "CallsUnprivilegedWithoutLock" (.callSame "bar") .NotLocked
        = [.callsUnprivilegedWithoutLock "CallsUnprivilegedWithoutLock" "bar"] := by
  refine ⟨fun p n m s => rfl,
    fun caller callee => ⟨rfl, rfl, rfl, rfl, fun s => ?_, fun s => ?_⟩,
    fun s => ?_, fun s => ?_, by decide, by decide⟩
  · cases s <;> rfl
  · cases s <;> rfl
  · cases s <;> decide
  · cases s <;> decide

/-- C3 counterexample: the test names callsPrivileged and
callsUnprivileged both begin with the recognized prefix call, so under
the claim's begins-with rule both are Privileged; but the test's
expectation at lines 48-54 treats both as unprivileged (its wanted
message reads "unprivileged method callsPrivileged calls privileged
method managedBar", and callsUnprivileged's call of bar is marked OK),
and the begins-with pipeline produces the opposite diagnostics of the
test on both methods: nothing for callsPrivileged and a violation for
callsUnprivileged. -/
theorem claim_C3_cx :
    beginsWith "call" "callsPrivileged" = true
    ∧ beginsWith "call" "callsUnprivileged" = true
    ∧ classify "callsPrivileged" = .Privileged
    ∧ classify "callsUnprivileged" = .Privileged
    ∧ analyzeMethod { name := "callsPrivileged", body := .callSame "managedBar" } = []
    ∧ callsPrivilegedWants
        = [.unprivilegedCallsPrivileged "callsPrivileged" "managedBar"]
    ∧ analyzeMethod { name := "callsUnprivileged", body := .callSame "bar" }
        = [.callsUnprivilegedWithoutLock "callsUnprivileged" "bar"]
    ∧ callsUnprivilegedWants = [] := by
  exact ⟨by decide, by decide, by decide, by decide, by decide, rfl, by decide, rfl⟩

/-- C3 (amended): the Declaration Classifier marks a method Privileged
exactly when its name's first character is upper-case or the name's
first camelCase word — the maximal leading run of non-upper-case
characters — equals one of managed, threaded, call (so the recognized
prefix must be followed by nothing or an upper-case character, not
merely begin the identifier), and Unprivileged otherwise; thus callBar
is Privileged while callsPrivileged and callsUnprivileged are not, a
name merely containing such a string elsewhere is not Privileged, and
the amended classifier reproduces the test's diagnostics at lines
48-54. -/
theorem claim_C3 :
    (∀ name : String,
      classifyWord name = .Privileged
        ↔ ((∃ c r, name.data = c :: r ∧ c.isUpper = true)
            ∨ (∃ r, name.data = "managed".data ++ r
                ∧ ∀ c r2, r = c :: r2 → c.isUpper = true)
            ∨ (∃ r, name.data = "threaded".data ++ r
                ∧ ∀ c r2, r = c :: r2 → c.isUpper = true)
            ∨ (∃ r, name.data = "call".data ++ r
                ∧ ∀ c r2, r = c :: r2 → c.isUpper = true)))
    ∧ classifyWord "Bar" = .Privileged
    ∧ classifyWord "managedBar" = .Privileged
    ∧ classifyWord "threadedBar" = .Privileged
    ∧ classifyWord "callBar" = .Privileged
    ∧ classifyWord "bar" = .Unprivileged
    ∧ classifyWord "nonlocking" = .Unprivileged
    ∧ classifyWord "otherprefixBar" = .Unprivileged
    ∧ classifyWord "callsPrivileged" = .Unprivileged
    ∧ classifyWord "callsUnprivileged" = .Unprivileged
    ∧ classifyWord "nocallhere" = .Unprivileged
    ∧ classifyWord "xmanagedY" = .Unprivileged
    ∧ analyzeMethodWord { name := "callsPrivileged", body := .callSame "managedBar" }
        = callsPrivilegedWants
    ∧ analyzeMethodWord { name := "callsUnprivileged", body := .callSame "bar" }
        = callsUnprivilegedWants := by
  refine ⟨?_, by decide, by decide, by decide, by decide, by decide, by decide,
    by decide, by decide, by decide, by decide, by decide, by decide, by decide⟩
  intro name
  have hcl : classifyWord name = .Privileged
      ↔ (upperFirst name || decide (firstWord name = "managed".data)
          || decide (firstWord name = "threaded".data)
          || decide (firstWord name = "call".data)) = true := by
    rw [classifyWord]
    cases h : (upperFirst name || decide (firstWord name = "managed".data)
          || decide (firstWord name = "threaded".data)
          || decide (firstWord name = "call".data)) with
    | false => simp [h]
    | true => simp [h]
  rw [hcl]
  simp only [Bool.or_eq_true, decide_eq_true_eq, upperFirst_iff, firstWord,
    firstWordChars_eq_iff "managed".data (by decide),
    firstWordChars_eq_iff "threaded".data (by decide),
    firstWordChars_eq_iff "call".data (by decide), or_assoc]

/-- C4 counterexample: traversing every function literal from a fresh
NotLocked state, combined with the unguarded-access check, flags the
access inside CallLiteral's second literal — the literal that appears
while the enclosing method's state is Locked — whereas the test's
expectation annotations mark every line of CallLiteral OK.  The second
conjunct isolates the offending construct: a literal containing only a
protected-field access, reached with the enclosing state Locked, is
diagnosed by the fresh-start walk. -/
theorem claim_C4_cx :
    walkViol .Privileged "CallLiteral" callLiteralBody .NotLocked
      = [.accessWithoutMutex "CallLiteral" "i"]
    ∧ walkViol .Privileged "CallLiteral" (.funcLit (.access "i")) .Locked
      = [.accessWithoutMutex "CallLiteral" "i"]
    ∧ callLiteralWants = [] := by
  refine ⟨by decide, by decide, rfl⟩

/-- C4 (amended): every function literal is analyzed as a nested scope
whose traversal starts from the enclosing method's lock state at the
point where the literal appears (not from a fresh NotLocked state
irrespective of it), and no lock-state change made inside the literal
alters the enclosing method's lock-state trace after the literal; the
amended walk reproduces the test's expectations for both CallLiteral
and CallAssignedLiteral. -/
theorem claim_C4 :
    (∀ (p : Privilege) (n : String) (b : Stmt) (s : LockState),
        walkInherit p n (.funcLit b) s = walkInherit p n b s
        ∧ flowState (.funcLit b) s = s)
    ∧ walkInherit .Privileged "CallLiteral" callLiteralBody .NotLocked = callLiteralWants
    ∧ walkInherit .Privileged "CallAssignedLiteral" callAssignedLiteralBody .NotLocked
        = [] := by
  exact ⟨fun p n b s => ⟨rfl, rfl⟩, by decide, by decide⟩

/-- C5: in an Unprivileged method every lock-acquire or lock-release call
on the type's own lock produces exactly one locks-mutex diagnostic —
the number of locks-mutex diagnostics equals the number of such calls,
whatever the lock state — while a Privileged method's walk never
produces one; concretely, the bare methods bar and otherprefixBar each
get exactly one diagnostic for their acquire, and Bar gets none. -/
theorem claim_C5 :
    (∀ (n : String) (b : Stmt) (s : LockState),
        (walkViol .Unprivileged n b s).count (.locksMutex n) = lockOps b)
    ∧ (∀ (n : String) (b : Stmt) (s : LockState),
        (walkViol .Privileged n b s).count (.locksMutex n) = 0)
    ∧ (∀ s, walkViol .Unprivileged "bar" barBody s = [.locksMutex "bar"])
    ∧ (∀ s, walkViol .Unprivileged "otherprefixBar" barBody s
        = [.locksMutex "otherprefixBar"])
    ∧ (∀ s, walkViol .Privileged "Bar" barBody s = []) := by
  refine ⟨?_, ?_, fun s => rfl, fun s => rfl, fun s => rfl⟩
  · intro n b
    induction b with
    | skip => intro s; rfl
    | lockAcquire => intro s; simp [walkViol, lockOps]
    | lockRelease => intro s; simp [walkViol, lockOps]
    | access fld => intro s; cases s <;> simp [walkViol, lockOps]
    | callSame m =>
        intro s
        simp only [walkViol, lockOps]
        cases hm : classify m <;> cases s <;> simp [checkCall]
    | foreign => intro s; rfl
    | deferRelease => intro s; rfl
    | funcLit b ih => intro s; simp [walkViol, lockOps, ih]
    | seq a b iha ihb => intro s; simp [walkViol, lockOps, List.count_append, iha, ihb]
    | ite a b iha ihb => intro s; simp [walkViol, lockOps, List.count_append, iha, ihb]
    | loop b ih => intro s; simp [walkViol, lockOps, ih]
  · intro n b
    induction b with
    | skip => intro s; rfl
    | lockAcquire => intro s; rfl
    | lockRelease => intro s; rfl
    | access fld => intro s; cases s <;> simp [walkViol]
    | callSame m =>
        intro s
        simp only [walkViol]
        cases hm : classify m <;> cases s <;> simp [checkCall]
    | foreign => intro s; rfl
    | deferRelease => intro s; rfl
    | funcLit b ih => intro s; simp [walkViol, ih]
    | seq a b iha ihb => intro s; simp [walkViol, List.count_append, iha, ihb]
    | ite a b iha ihb => intro s; simp [walkViol, List.count_append, iha, ihb]
    | loop b ih => intro s; simp [walkViol, ih]

/-- C6: for a loop the state entering the body is the merge of the
pre-loop state and the previous iteration's end-of-body state iterated
to a fixed point, the state after the loop is the merge of the pre-loop
state and the post-body state, and a loop body's diagnostics are taken
at the fixed-point entry state; consequently a method that locks before
a loop whose body preserves the Locked state each iteration ends the
loop Locked, so a protected-field access after the loop adds no
diagnostic — as in ExportedLoopLocking, whose walk is empty. -/
theorem claim_C6 :
    (∀ (b : Stmt) (s : LockState) (p : Privilege) (n : String),
        flowState (.loop b) s = LockState.merge s (flowState b (loopEntry b s))
        ∧ LockState.merge s (flowState b (loopEntry b s)) = loopEntry b s
        ∧ walkViol p n (.loop b) s = walkViol p n b (loopEntry b s))
    ∧ (∀ (b : Stmt) (n fld : String) (s : LockState),
        flowState b .Locked = .Locked →
        flowState (.seq .lockAcquire (.loop b)) s = .Locked
        ∧ walkViol .Privileged n (.seq (.seq .lockAcquire (.loop b)) (.access fld)) s
            = walkViol .Privileged n (.seq .lockAcquire (.loop b)) s)
    ∧ walkViol .Privileged "ExportedLoopLocking" exportedLoopLockingBody .NotLocked
        = [] := by
  refine ⟨fun b s p n => ⟨rfl, loopEntry_fix b s, rfl⟩, ?_, by decide⟩
  intro b n fld s hb
  have hE : loopEntry b .Locked = .Locked := by
    simp [loopEntry, merge_locked_left, hb]
  have h1 : flowState (.seq .lockAcquire (.loop b)) s = .Locked := by
    show flowState (.loop b) .Locked = .Locked
    rw [flowState_loop, hE, hb]
    rfl
  refine ⟨h1, ?_⟩
  show walkViol .Privileged n (.seq .lockAcquire (.loop b)) s
      ++ walkViol .Privileged n (.access fld) (flowState (.seq .lockAcquire (.loop b)) s)
      = walkViol .Privileged n (.seq .lockAcquire (.loop b)) s
  rw [h1]
  simp [walkViol]

/-- C6 witness: the second conjunct of C6 applied to the
ExportedLoopLocking loop body (unlock then re-lock), which preserves
Locked across an iteration, with all hypotheses discharged by
evaluation. -/
theorem claim_C6_spot :
    flowState (.seq .lockRelease .lockAcquire) .Locked = .Locked
    ∧ (flowState (.seq .lockAcquire (.loop (.seq .lockRelease .lockAcquire)))
          .NotLocked = .Locked
      ∧ walkViol .Privileged "ExportedLoopLocking"
          (.seq (.seq .lockAcquire (.loop (.seq .lockRelease .lockAcquire)))
            (.access "i")) .NotLocked
        = walkViol .Privileged "ExportedLoopLocking"
            (.seq .lockAcquire (.loop (.seq .lockRelease .lockAcquire))) .NotLocked) :=
  ⟨by decide,
    claim_C6.2.1 (.seq .lockRelease .lockAcquire) "ExportedLoopLocking" "i" .NotLocked
      (by decide)⟩

/-- C7: a scoped-release registration changes no state and produces no
diagnostic at its registration point; after an acquire immediately
followed by such a registration the state is Locked for the rest of the
visible body, so a later protected-field access yields no diagnostic —
concretely ExportedDeferLocking's walk is empty. -/
theorem claim_C7 :
    (∀ (s : LockState) (p : Privilege) (n : String),
        flowState .deferRelease s = s ∧ walkViol p n .deferRelease s = [])
    ∧ (∀ s, flowState (.seq .lockAcquire .deferRelease) s = .Locked)
    ∧ (∀ (n fld : String) (s : LockState),
        walkViol .Privileged n (.seq (.seq .lockAcquire .deferRelease) (.access fld)) s
          = [])
    ∧ walkViol .Privileged "ExportedDeferLocking" exportedDeferLockingBody .NotLocked
        = [] := by
  exact ⟨fun s p n => ⟨rfl, rfl⟩, fun s => rfl, fun n fld s => rfl, by decide⟩

/-- C8: a type without a lock-typed field is absent from the type map and
yields zero diagnostics whatever its method bodies, and a field access
or call through a receiver of a different type than the method's own
mapped type neither changes the lock state nor contributes a
diagnostic; concretely the walks of FooNoMutex and of
FooUnrelatedExportedMethod are both empty. -/
theorem claim_C8 :
    (∀ t : TypeDecl, t.hasLockField = false → analyzeType t = [])
    ∧ (∀ (p : Privilege) (n : String) (s : LockState),
        walkViol p n .foreign s = [] ∧ flowState .foreign s = s)
    ∧ analyzeType fooNoMutex = []
    ∧ analyzeType fooUnrelated = [] := by
  refine ⟨?_, fun p n s => ⟨rfl, rfl⟩, by decide, by decide⟩
  intro t h
  rw [analyzeType, h]
  simp

/-- C8 witness: the first conjunct of C8 applied to the concrete lockless
type FooNoMutex, whose missing lock field is checked by evaluation. -/
theorem claim_C8_spot : analyzeType fooNoMutex = [] :=
  claim_C8.1 fooNoMutex (by decide)

/-- C9: the analysis is a total function, and the per-loop entry-state
iteration over the two-value lattice converges within at most two
passes: the entry state used by the analyzer is the second iterate, the
second iterate is already a fixed point of the loop's merge equation,
and every later iterate equals it. -/
theorem claim_C9 :
    (∀ (b : Stmt) (s : LockState), loopEntry b s = entrySeq b s 2)
    ∧ (∀ (b : Stmt) (s : LockState),
        LockState.merge s (flowState b (entrySeq b s 2)) = entrySeq b s 2)
    ∧ (∀ (b : Stmt) (s : LockState) (k : Nat), entrySeq b s (k + 2) = entrySeq b s 2) := by
  have h1 : ∀ (b : Stmt) (s : LockState), loopEntry b s = entrySeq b s 2 :=
    fun b s => rfl
  have h2 : ∀ (b : Stmt) (s : LockState),
      LockState.merge s (flowState b (entrySeq b s 2)) = entrySeq b s 2 := by
    intro b s
    rw [← h1 b s]
    exact loopEntry_fix b s
  refine ⟨h1, h2, ?_⟩
  intro b s k
  induction k with
  | zero => rfl
  | succ k ih =>
      show LockState.merge s (flowState b (entrySeq b s (k + 2))) = entrySeq b s 2
      rw [ih]
      exact h2 b s

/-- C10: inside a Privileged method a lock-release call on the type's own
lock is never itself diagnosed, even when the state there is already
NotLocked — the release only sets the state to NotLocked, which later
accesses reflect; concretely ExportedConditionalLocking, whose else
branch releases while possibly unlocked, gets exactly the one
unguarded-access diagnostic, and ExportedUnlocking likewise. -/
theorem claim_C10 :
    (∀ (n : String) (s : LockState),
        walkViol .Privileged n .lockRelease s = []
        ∧ flowState .lockRelease s = .NotLocked)
    ∧ walkViol .Privileged "ExportedConditionalLocking"
        exportedConditionalLockingBody .NotLocked
        = [.accessWithoutMutex "ExportedConditionalLocking" "i"]
    ∧ walkViol .Privileged "ExportedUnlocking" exportedUnlockingBody .NotLocked
        = [.accessWithoutMutex "ExportedUnlocking" "i"] := by
  exact ⟨fun n s => ⟨rfl, rfl⟩, by decide, by decide⟩

end LockCheck
